import Mathlib

/-!
Verification of the Recording Session Engine of macos-whisper-bar.

The development shallowly embeds the two core source files:

* `src-tauri/src/sck_audio_helper.rs` — the audio mixdown / resample /
  quantize codec. The Rust code computes with `f32`; here the samples and
  rates are modelled as exact rationals (`ℚ`), the standard idealization of
  the floating-point arithmetic, with every control-flow decision and every
  formula carried over literally from the source.
* `src-tauri/src/worker.rs` (with the state shape of
  `src-tauri/src/app_state.rs`) — the session state machine driving the
  external transcription worker. External effects (filesystem probes,
  process spawn/wait/kill, the artifact writer) are passed in as explicit
  oracle records, and each command becomes a pure function from the old
  session state to the result and the new session state.
-/

namespace WhisperBar

/-! ### Codec constants (`sck_audio_helper.rs` lines 15–16) -/

def OUTPUT_SAMPLE_RATE : ℚ := 16000

def OUTPUT_GAIN : ℚ := 5 / 4

/-! ### Rust primitive operations used by the codec -/

/-- `f32::round` in Rust rounds half away from zero. -/
def rustRound (q : ℚ) : ℤ :=
  if 0 ≤ q then ⌊q + 1 / 2⌋ else ⌈q - 1 / 2⌉

/-- `f32::clamp(lo, hi)`: if below `lo` return `lo`, if above `hi` return
`hi`, else the value itself. -/
def clampQ (x lo hi : ℚ) : ℚ :=
  if x < lo then lo else if x > hi then hi else x

/-- `i16::from_le_bytes([b0, b1])`: two's-complement signed 16-bit value. -/
def i16FromLeBytes (b0 b1 : ℕ) : ℤ :=
  let v : ℤ := b0 + 256 * b1
  if v < 32768 then v else v - 65536

/-- `i16::to_le_bytes`: low byte first. -/
def i16ToLeBytes (n : ℤ) : List ℕ :=
  let u := (n % 65536).toNat
  [u % 256, u / 256]

/-- `bytes.chunks_exact(2)`: consecutive pairs, incomplete tail dropped. -/
def chunksExact2 : List ℕ → List (ℕ × ℕ)
  | b0 :: b1 :: rest => (b0, b1) :: chunksExact2 rest
  | _ => []

/-! ### `decode_i16_mono` (`sck_audio_helper.rs` lines 215–244) -/

/-- The multi-channel accumulation loop of `decode_i16_mono`: running
`frame_acc`/`channel_index` state, emitting the channel average each time a
frame completes; a trailing incomplete frame is dropped. -/
def i16FrameLoop (channel_count : ℕ) : List ℚ → ℚ → ℕ → List ℚ
  | [], _, _ => []
  | sample :: rest, frame_acc, channel_index =>
    let acc := frame_acc + sample
    let ci := channel_index + 1
    if ci = channel_count then
      (acc / (channel_count : ℚ)) :: i16FrameLoop channel_count rest 0 0
    else
      i16FrameLoop channel_count rest acc ci

/-- `decode_i16_mono(bytes, channel_count)`: little-endian `i16` samples,
each scaled by `1/32768`, averaged across interleaved channels. -/
def decode_i16_mono (bytes : List ℕ) (channel_count : ℕ) : List ℚ :=
  if channel_count = 0 then []
  else
    let samples :=
      (chunksExact2 bytes).map
        (fun p => ((i16FromLeBytes p.1 p.2 : ℚ) / 32768))
    if channel_count = 1 then samples
    else i16FrameLoop channel_count samples 0 0

/-! ### `mix_to_mono` (`sck_audio_helper.rs` lines 140–183)

`mix_to_mono` first decodes every physical buffer to a mono `Vec<f32>` and
keeps the non-empty ones (`per_buffer`); `mix_decoded` models everything
from that point on (lines 150–183).  The float32 byte decoding
(`decode_f32_mono`) is a bit-level reinterpretation and stays outside the
rational model; the claims range over the already decoded sequences. -/

/-- Lines 155–183 of `mix_to_mono`, operating on the collected non-empty
`per_buffer` list: one buffer passes through; otherwise truncate to the
shortest buffer and average elementwise (the source accumulates
stream-by-stream into `mixed[index]` and divides by the buffer count at
the end; per index that is exactly the column sum divided by the count). -/
def mix_nonempty (per_buffer : List (List ℚ)) : List ℚ :=
  if per_buffer.isEmpty then []
  else if per_buffer.length = 1 then per_buffer.headD []
  else
    match (per_buffer.map List.length).min? with
    | none => []
    | some min_len =>
      if min_len = 0 then []
      else
        (List.range min_len).map
          (fun index =>
            (per_buffer.map (fun s => s.getD index 0)).sum / (per_buffer.length : ℚ))

/-- Lines 141–183 of `mix_to_mono` over the decoded per-buffer mono
sequences: the loop keeps exactly the non-empty decoded buffers
(`if !decoded.is_empty() { per_buffer.push(decoded) }`), then mixes
them. -/
def mix_decoded (decoded : List (List ℚ)) : List ℚ :=
  mix_nonempty (decoded.filter (fun b => ¬ b.isEmpty))

/-! ### `resample_to_output_rate` (`sck_audio_helper.rs` lines 246–275) -/

/-- The output loop of `resample_to_output_rate`: for each `index` compute
`source_pos = index * ratio`, break out of the loop as soon as
`base_index` reaches the input length, otherwise linearly interpolate
between `base_index` and `next_index`. `fuel` counts the remaining
iterations (`output_len - index`). -/
def resampleLoop (input : List ℚ) (ratio : ℚ) : ℕ → ℕ → List ℚ
  | _, 0 => []
  | index, fuel + 1 =>
    let source_pos : ℚ := index * ratio
    let base_index := (⌊source_pos⌋).toNat
    if input.length ≤ base_index then []
    else
      let next_index := min (base_index + 1) (input.length - 1)
      let fraction := source_pos - (base_index : ℚ)
      let value :=
        input.getD base_index 0 * (1 - fraction) + input.getD next_index 0 * fraction
      value :: resampleLoop input ratio (index + 1) fuel

/-- The loop body of `resample_to_output_rate` at output index `index`
(the linear interpolation the loop pushes when it does not break). -/
def lerpAt (input : List ℚ) (ratio : ℚ) (index : ℕ) : ℚ :=
  let source_pos : ℚ := index * ratio
  let base_index := (⌊source_pos⌋).toNat
  let next_index := min (base_index + 1) (input.length - 1)
  let fraction := source_pos - (base_index : ℚ)
  input.getD base_index 0 * (1 - fraction) + input.getD next_index 0 * fraction

/-- `resample_to_output_rate(input, source_rate)`: empty input or
non-positive rate yields empty; a rate within 1 Hz of 16000 passes the
input through; otherwise linear interpolation at ratio
`source_rate / 16000` over `floor(len / ratio)` output samples. -/
def resample_to_output_rate (input : List ℚ) (source_rate : ℚ) : List ℚ :=
  if input.isEmpty ∨ source_rate ≤ 0 then []
  else if |source_rate - OUTPUT_SAMPLE_RATE| < 1 then input
  else
    let ratio := source_rate / OUTPUT_SAMPLE_RATE
    let output_len := (max ⌊(input.length : ℚ) / ratio⌋ 0).toNat
    if output_len = 0 then []
    else resampleLoop input ratio 0 output_len

/-! ### `float_to_pcm_bytes` (`sck_audio_helper.rs` lines 277–285) -/

/-- One sample of `float_to_pcm_bytes`: gain, clamp to `[-1, 1]`, scale by
`i16::MAX = 32767`, round to nearest (ties away from zero). -/
def float_to_pcm_sample (sample : ℚ) : ℤ :=
  rustRound (clampQ (sample * OUTPUT_GAIN) (-1) 1 * 32767)

/-- `float_to_pcm_bytes(input)`: each quantized sample serialized
little-endian. -/
def float_to_pcm_bytes (input : List ℚ) : List ℕ :=
  input.flatMap (fun sample => i16ToLeBytes (float_to_pcm_sample sample))

/-! ### Rust string primitives used by the session code

Rust's `String` is UTF-8: `len()` is the byte length, `trim()` strips
characters with the Unicode `White_Space` property from both ends. -/

/-- `char::is_whitespace`: the Unicode `White_Space` property. -/
def rustIsWhitespace (c : Char) : Bool :=
  decide ((0x9 ≤ c.toNat ∧ c.toNat ≤ 0xD) ∨ c.toNat = 0x20 ∨ c.toNat = 0x85 ∨
    c.toNat = 0xA0 ∨ c.toNat = 0x1680 ∨ (0x2000 ≤ c.toNat ∧ c.toNat ≤ 0x200A) ∨
    c.toNat = 0x2028 ∨ c.toNat = 0x2029 ∨ c.toNat = 0x202F ∨ c.toNat = 0x205F ∨
    c.toNat = 0x3000)

/-- `str::trim`: drop whitespace from both ends. -/
def rustTrim (s : String) : String :=
  ⟨((s.data.dropWhile rustIsWhitespace).reverse.dropWhile rustIsWhitespace).reverse⟩

/-- `s.trim().is_empty()` — the "blank" test the session code uses. -/
def isBlank (s : String) : Bool :=
  (rustTrim s).data.isEmpty

/-- `char::len_utf8`: UTF-8 encoded size of one scalar value. -/
def charUtf8Size (c : Char) : ℕ :=
  if c.toNat < 0x80 then 1
  else if c.toNat < 0x800 then 2
  else if c.toNat < 0x10000 then 3
  else 4

/-- Rust `String::len`: the UTF-8 byte length. -/
def utf8Len (s : String) : ℕ :=
  (s.data.map charUtf8Size).sum

/-! ### Session state (`app_state.rs` lines 10–57)

`StateInner` keeps exactly the fields the worker commands read or write;
the remaining fields of the Rust struct (language, model id, filesystem
paths, selected devices) are configuration that the modelled transitions
only pass along to the outside world, and the filesystem probes on those
paths enter through the oracle records below.  The process handle inside
`WorkerProcess` carries no session-visible data, so the `worker` slot is
`Option Unit`: present or absent. -/

inductive AppStatus where
  | Idle
  | Installing
  | Ready
  | Recording
  | Error
deriving DecidableEq

structure StateInner where
  status : AppStatus
  status_message : String
  transcript : String
  last_saved_path : Option String
  install_progress : Option ℚ
  error_message : Option String
  worker : Option Unit
deriving DecidableEq

/-! ### Worker protocol events (`worker.rs` lines 21–27 and 183–245) -/

/-- The deserialized shape of one worker stdout line: a JSON object with a
required `type` tag and optional `text` / `message` fields. -/
structure WorkerEvent where
  event_type : String
  text : Option String
  message : Option String
deriving DecidableEq

/-- One worker stdout line as seen by `handle_worker_event`: either it
deserializes to a `WorkerEvent` or it is malformed (`serde_json` failure:
not JSON, not an object, or no string `type` field). -/
inductive WorkerLine where
  | malformed
  | event (e : WorkerEvent)
deriving DecidableEq

/-- `handle_worker_event` (`worker.rs` lines 183–245): dispatch on the
`type` tag; malformed lines and unknown tags leave the state untouched.
The Rust function returns `()` and can signal no failure; here it is the
induced state transformer. -/
def handle_worker_event (line : WorkerLine) (st : StateInner) : StateInner :=
  match line with
  | WorkerLine.malformed => st
  | WorkerLine.event e =>
    match e.event_type with
    | "status" =>
      match e.message with
      | some message =>
        if st.status = AppStatus.Recording then { st with status_message := message } else st
      | none => st
    | "partial" =>
      match e.text with
      | some text =>
        if isBlank text then st
        else
          { st with
              transcript :=
                (if st.transcript.data.isEmpty then st.transcript
                 else st.transcript ++ "\n") ++ rustTrim text,
              status_message :=
                if st.status = AppStatus.Recording then "Recording" else st.status_message }
      | none => st
    | "final" =>
      match e.text with
      | some text =>
        if isBlank text = false ∧ utf8Len st.transcript < utf8Len text then
          { st with transcript := text }
        else st
      | none => st
    | "error" =>
      let message := e.message.getD "Worker reported an unknown error"
      { st with
          status := AppStatus.Error,
          status_message := "Recording error",
          error_message := some message,
          worker := none }
    | _ => st

/-! ### Pre-flight model check (`worker.rs` lines 170–181) -/

/-- Filesystem view of the selected model directory; `entry_names` is what
`read_dir` lists (empty when `read_dir` itself fails). -/
structure ModelDir where
  model_path_exists : Bool
  config_json_exists : Bool
  entry_names : List String
deriving DecidableEq

/-- `model_ready(model_path)`: the directory and its `config.json` must
exist and some entry must start with `weights.` or `model`. -/
def model_ready (dir : ModelDir) : Bool :=
  if ¬ dir.model_path_exists ∨ ¬ dir.config_json_exists then false
  else
    dir.entry_names.any
      (fun name => name.startsWith "weights." || name.startsWith "model")

/-! ### `start_recording` (`worker.rs` lines 29–168) -/

/-- External-world outcomes consulted by `start_recording`, in program
order: the runtime-script writer, the interpreter existence probe, the
model directory view, and process spawn / pipe capture results. -/
structure StartEnv where
  ensure_scripts_ok : Bool
  venv_python_exists : Bool
  model_dir : ModelDir
  spawn_ok : Bool
  stdout_captured : Bool
  stderr_captured : Bool
deriving DecidableEq

/-- Result of `start_recording`: the command result, the session state
afterwards, and whether a worker subprocess was actually created. -/
structure StartOutcome where
  result : Except String Unit
  state : StateInner
  spawned : Bool

/-- `start_recording`: pre-flight checks in source order (scripts, status
conflict, readiness, interpreter, model), then spawn, pipe capture, and
the single state mutation installing the worker handle. -/
def start_recording (env : StartEnv) (st : StateInner) : StartOutcome :=
  if ¬ env.ensure_scripts_ok then
    ⟨Except.error "failed preparing runtime scripts", st, false⟩
  else if st.status = AppStatus.Recording then
    ⟨Except.error "recording is already active", st, false⟩
  else if ¬ (st.status = AppStatus.Ready ∨ st.status = AppStatus.Idle) then
    ⟨Except.error "dependencies are not ready yet. wait for installation to finish", st, false⟩
  else if ¬ env.venv_python_exists then
    ⟨Except.error "Python environment is missing. Retry dependency installation", st, false⟩
  else if ¬ model_ready env.model_dir then
    ⟨Except.error "Selected model is not installed. Click Install Model first.", st, false⟩
  else if ¬ env.spawn_ok then
    ⟨Except.error "failed starting worker", st, false⟩
  else if ¬ env.stdout_captured then
    ⟨Except.error "unable to capture worker stdout", st, true⟩
  else if ¬ env.stderr_captured then
    ⟨Except.error "unable to capture worker stderr", st, true⟩
  else
    ⟨Except.ok (),
     { st with
         worker := some (),
         status := AppStatus.Recording,
         status_message := "Recording",
         error_message := none,
         last_saved_path := none,
         transcript := "" },
     true⟩

/-! ### `stop_recording` (`worker.rs` lines 247–334) -/

/-- The error message of the empty-transcript stop path
(`worker.rs` lines 303–305 and 312–314). -/
def noSpeechMsg : String :=
  "No speech was captured. Check microphone permission and audio input device."

/-- External-world outcomes consulted by `stop_recording`: whether a stdin
pipe was captured at spawn and whether writing `stop\n` to it succeeds,
whether the 15 s wait timed out and whether the forced kill succeeds (the
elapsed seconds feed the status message), and the artifact writer's
result. -/
structure StopEnv where
  stdin_present : Bool
  stdin_write_ok : Bool
  wait_timed_out : Bool
  kill_ok : Bool
  wait_secs : ℕ
  save_result : Except String String

/-- Result of `stop_recording`: the command result (the saved artifact
path on success) and the session state afterwards. -/
structure StopOutcome where
  result : Except String String
  state : StateInner

/-- `stop_recording`: require an active recording, take the worker handle
out of the session, signal and reap the process, then either fail with the
no-speech error on a blank transcript or save the artifact and return to
`Ready`. -/
def stop_recording (env : StopEnv) (st : StateInner) : StopOutcome :=
  if ¬ (st.status = AppStatus.Recording) then
    ⟨Except.error "recording is not active", st⟩
  else
    match st.worker with
    | none =>
      ⟨Except.error "missing worker process",
       { st with status_message := "Stopping recording" }⟩
    | some _ =>
      let st1 := { st with status_message := "Stopping recording", worker := none }
      if env.stdin_present ∧ ¬ env.stdin_write_ok then
        ⟨Except.error "failed signaling worker to stop", st1⟩
      else if env.wait_timed_out ∧ ¬ env.kill_ok then
        ⟨Except.error "failed killing worker", st1⟩
      else
        let st2 :=
          if env.wait_timed_out then
            { st1 with
                status_message :=
                  "Worker forced to stop after " ++ toString env.wait_secs ++ "s" }
          else st1
        if isBlank st2.transcript then
          ⟨Except.error noSpeechMsg,
           { st2 with
               status := AppStatus.Error,
               status_message := "No transcript captured",
               error_message := some noSpeechMsg,
               worker := none }⟩
        else
          match env.save_result with
          | Except.error e => ⟨Except.error e, st2⟩
          | Except.ok path =>
            ⟨Except.ok path,
             { st2 with
                 status := AppStatus.Ready,
                 status_message := "Ready",
                 last_saved_path := some path,
                 error_message := none,
                 install_progress := some 1,
                 worker := none }⟩

/-- A session in the middle of a recording whose transcript is `"hello"`;
used to instantiate the final-event theorems. -/
def stHello : StateInner :=
  ⟨AppStatus.Recording, "Recording", "hello", none, none, none, some ()⟩

/-- A recording session that never received any text. -/
def stEmptyRec : StateInner :=
  ⟨AppStatus.Recording, "Recording", "", none, none, none, some ()⟩

/-- An idle ready session with no worker. -/
def stReady : StateInner :=
  ⟨AppStatus.Ready, "Ready", "", none, none, none, none⟩

/-- A stop environment where every external step succeeds promptly. -/
def envOk : StopEnv :=
  ⟨true, true, false, true, 0, Except.ok "path.md"⟩

/-- A start environment whose selected model directory is absent. -/
def envNoModel : StartEnv :=
  ⟨true, true, ⟨false, false, []⟩, true, true, true⟩

/-! ## Supporting lemmas -/

/-- `handle_worker_event` on a `final` event reduces to the guarded
transcript replacement of `worker.rs` lines 217–226. -/
theorem handle_final_eq (st : StateInner) (text : String) :
    handle_worker_event (WorkerLine.event ⟨"final", some text, none⟩) st =
      if isBlank text = false ∧ utf8Len st.transcript < utf8Len text then
        { st with transcript := text }
      else st := rfl

/-- Rounding half away from zero moves a rational by at most `1/2`. -/
theorem rustRound_close (q : ℚ) : |(rustRound q : ℚ) - q| ≤ 1 / 2 := by
  unfold rustRound
  split
  · rw [abs_le]
    constructor
    · have := Int.lt_floor_add_one (q + 1 / 2)
      push_cast at this ⊢
      linarith
    · have := Int.floor_le (q + 1 / 2)
      push_cast at this ⊢
      linarith
  · rw [abs_le]
    constructor
    · have := Int.le_ceil (q - 1 / 2)
      push_cast at this ⊢
      linarith
    · have := Int.ceil_lt_add_one (q - 1 / 2)
      push_cast at this ⊢
      linarith

/-- Clamping into `[-1, 1]` lands in `[-1, 1]`. -/
theorem clampQ_abs_le (x : ℚ) : |clampQ x (-1) 1| ≤ 1 := by
  unfold clampQ
  split_ifs with h1 h2
  · simp
  · simp
  · rw [abs_le]
    exact ⟨le_of_not_lt h1, le_of_not_gt h2⟩

/-- Little-endian 16-bit serialization followed by deserialization is the
identity on the `i16` range. -/
theorem i16_roundtrip (n : ℤ) (h1 : -32768 ≤ n) (h2 : n ≤ 32767) :
    i16FromLeBytes ((n % 65536).toNat % 256) ((n % 65536).toNat / 256) = n := by
  simp only [i16FromLeBytes]
  split <;> omega

/-- The quantized sample stays within `[-32767, 32767]`. -/
theorem float_to_pcm_sample_bounds (s : ℚ) :
    -32767 ≤ float_to_pcm_sample s ∧ float_to_pcm_sample s ≤ 32767 := by
  have hg : |clampQ (s * OUTPUT_GAIN) (-1) 1| ≤ 1 := clampQ_abs_le _
  have hr := rustRound_close (clampQ (s * OUTPUT_GAIN) (-1) 1 * 32767)
  rw [abs_le] at hg hr
  have hlo : (-32768 : ℚ) < (rustRound (clampQ (s * OUTPUT_GAIN) (-1) 1 * 32767) : ℚ) := by
    nlinarith [hg.1, hr.1]
  have hhi : (rustRound (clampQ (s * OUTPUT_GAIN) (-1) 1 * 32767) : ℚ) < 32768 := by
    nlinarith [hg.2, hr.2]
  have hlo2 : (-32768 : ℤ) < rustRound (clampQ (s * OUTPUT_GAIN) (-1) 1 * 32767) := by
    exact_mod_cast hlo
  have hhi2 : rustRound (clampQ (s * OUTPUT_GAIN) (-1) 1 * 32767) < (32768 : ℤ) := by
    exact_mod_cast hhi
  unfold float_to_pcm_sample
  omega

/-! ## Claims -/

/-- **C4.** For every input sample sequence and every source rate whose
distance from 16000 Hz is less than 1 Hz, the resampler returns the input
sequence exactly unchanged. -/
theorem resample_identity_within_one_hz (input : List ℚ) (source_rate : ℚ)
    (h : |source_rate - OUTPUT_SAMPLE_RATE| < 1) :
    resample_to_output_rate input source_rate = input := by
  have hpos : ¬ source_rate ≤ 0 := by
    rw [abs_sub_lt_iff] at h
    unfold OUTPUT_SAMPLE_RATE at h
    intro hle
    linarith [h.2]
  cases input with
  | nil => simp [resample_to_output_rate]
  | cons a l =>
    simp [resample_to_output_rate, hpos, h]

/-- Witness for C4 at source rate `16000.5` and input `[1, 2, 3]`. -/
theorem resample_identity_within_one_hz_witness :
    |(16000.5 : ℚ) - OUTPUT_SAMPLE_RATE| < 1 ∧
    resample_to_output_rate [1, 2, 3] 16000.5 = [1, 2, 3] := by
  have h : |(16000.5 : ℚ) - OUTPUT_SAMPLE_RATE| < 1 := by
    rw [abs_sub_lt_iff]
    constructor <;> norm_num [OUTPUT_SAMPLE_RATE]
  exact ⟨h, resample_identity_within_one_hz [1, 2, 3] 16000.5 h⟩

/-- **C8.** A worker stdout line that is malformed, or whose type tag is
none of `status` / `partial` / `final` / `error`, leaves the session state
completely unchanged (and the handler, which returns no result, can raise
no error). -/
theorem unknown_line_leaves_state_unchanged (line : WorkerLine) (st : StateInner)
    (h : line = WorkerLine.malformed ∨
      ∃ e, line = WorkerLine.event e ∧
        e.event_type ≠ "status" ∧ e.event_type ≠ "partial" ∧
        e.event_type ≠ "final" ∧ e.event_type ≠ "error") :
    handle_worker_event line st = st := by
  rcases h with h | ⟨e, rfl, h1, h2, h3, h4⟩
  · subst h; rfl
  · simp only [handle_worker_event]

/-- Witness for C8 on the unknown tag `bogus`. -/
theorem unknown_line_leaves_state_unchanged_witness :
    (WorkerLine.event ⟨"bogus", some "x", some "y"⟩ = WorkerLine.malformed ∨
      ∃ e, WorkerLine.event ⟨"bogus", some "x", some "y"⟩ = WorkerLine.event e ∧
        e.event_type ≠ "status" ∧ e.event_type ≠ "partial" ∧
        e.event_type ≠ "final" ∧ e.event_type ≠ "error") ∧
    handle_worker_event (WorkerLine.event ⟨"bogus", some "x", some "y"⟩) stHello = stHello := by
  refine ⟨Or.inr ⟨⟨"bogus", some "x", some "y"⟩, rfl, by decide, by decide, by decide, by decide⟩, ?_⟩
  exact unknown_line_leaves_state_unchanged _ stHello
    (Or.inr ⟨⟨"bogus", some "x", some "y"⟩, rfl, by decide, by decide, by decide, by decide⟩)

/-- **C1 (counterexample).** The code compares Rust byte lengths, not
character counts: with current transcript `"hello"` (5 characters, 5
bytes), a `final` event with text `"ééé"` (3 characters, 6 bytes) is not
strictly longer by character count, yet the transcript is replaced. -/
theorem final_char_count_counterexample :
    ("ééé" : String).length < ("hello" : String).length ∧
    isBlank "ééé" = false ∧
    (handle_worker_event (WorkerLine.event ⟨"final", some "ééé", none⟩) stHello).transcript
      = "ééé" := by
  refine ⟨by decide, by decide, ?_⟩
  rw [handle_final_eq]
  decide

/-- **C1 (amended).** On a worker `final` event carrying text T, the
transcript is replaced by T only if T is non-blank and strictly longer by
UTF-8 **byte** count (Rust `String::len`) than the current transcript;
otherwise the transcript (and the whole state) is left unchanged. -/
theorem final_event_replacement_by_byte_length (st : StateInner) (text : String) :
    (isBlank text = false ∧ utf8Len st.transcript < utf8Len text →
      handle_worker_event (WorkerLine.event ⟨"final", some text, none⟩) st =
        { st with transcript := text }) ∧
    (isBlank text = true ∨ utf8Len text ≤ utf8Len st.transcript →
      handle_worker_event (WorkerLine.event ⟨"final", some text, none⟩) st = st) := by
  rw [handle_final_eq]
  constructor
  · intro h
    rw [if_pos h]
  · intro h
    rw [if_neg]
    rintro ⟨hb, hl⟩
    rcases h with h | h
    · simp [h] at hb
    · omega

/-- Witness for C1: `"hello world"` (longer) replaces `"hello"`, `"hi"`
(shorter) leaves it unchanged. -/
theorem final_event_replacement_by_byte_length_witness :
    (isBlank "hello world" = false ∧ utf8Len stHello.transcript < utf8Len "hello world") ∧
    handle_worker_event (WorkerLine.event ⟨"final", some "hello world", none⟩) stHello =
      { stHello with transcript := "hello world" } ∧
    handle_worker_event (WorkerLine.event ⟨"final", some "hi", none⟩) stHello = stHello := by
  refine ⟨⟨by decide, by decide⟩, ?_, ?_⟩
  · exact (final_event_replacement_by_byte_length stHello "hello world").1 ⟨by decide, by decide⟩
  · exact (final_event_replacement_by_byte_length stHello "hi").2 (Or.inr (by decide))

/-- **C6.** Stopping an active recording whose transcript is blank fails:
the result is the no-speech error, the status becomes `Error` with the
no-speech error message recorded, the worker handle is cleared, and no
artifact path is returned or recorded (the saved-path slot is untouched). -/
theorem stop_blank_transcript_fails (env : StopEnv) (st : StateInner)
    (hrec : st.status = AppStatus.Recording)
    (hw : st.worker ≠ none)
    (hsig : env.stdin_present = true → env.stdin_write_ok = true)
    (hkill : env.wait_timed_out = true → env.kill_ok = true)
    (hblank : isBlank st.transcript = true) :
    (stop_recording env st).result = Except.error noSpeechMsg ∧
    (stop_recording env st).state.status = AppStatus.Error ∧
    (stop_recording env st).state.error_message = some noSpeechMsg ∧
    (stop_recording env st).state.worker = none ∧
    (stop_recording env st).state.last_saved_path = st.last_saved_path := by
  obtain ⟨sp, sw, wt, ko, ws, sr⟩ := env
  obtain ⟨status, sm, tr, lsp, ip, em, w⟩ := st
  simp only at hrec hblank hw hsig hkill ⊢
  subst hrec
  cases w with
  | none => exact absurd rfl hw
  | some u =>
    cases sp <;> cases wt <;> simp_all [stop_recording]

/-- Witness for C6: stopping `stEmptyRec` under `envOk`. -/
theorem stop_blank_transcript_fails_witness :
    stEmptyRec.status = AppStatus.Recording ∧ isBlank stEmptyRec.transcript = true ∧
    (stop_recording envOk stEmptyRec).result = Except.error noSpeechMsg ∧
    (stop_recording envOk stEmptyRec).state.status = AppStatus.Error ∧
    (stop_recording envOk stEmptyRec).state.worker = none := by
  have h := stop_blank_transcript_fails envOk stEmptyRec rfl (by decide)
    (by decide) (by decide) (by decide)
  exact ⟨rfl, by decide, h.1, h.2.1, h.2.2.2.1⟩

/-- **C9.** On a successful stop (non-blank transcript, artifact saved)
the final session mutation sets `install_progress` to `1.0` — although no
install was involved — along with status `Ready`, the saved path, and
clearing the worker handle and the error message. -/
theorem stop_success_final_mutation (env : StopEnv) (st : StateInner) (p : String)
    (hrec : st.status = AppStatus.Recording)
    (hw : st.worker ≠ none)
    (hsig : env.stdin_present = true → env.stdin_write_ok = true)
    (hkill : env.wait_timed_out = true → env.kill_ok = true)
    (hnb : isBlank st.transcript = false)
    (hsave : env.save_result = Except.ok p) :
    (stop_recording env st).result = Except.ok p ∧
    (stop_recording env st).state.install_progress = some 1 ∧
    (stop_recording env st).state.status = AppStatus.Ready ∧
    (stop_recording env st).state.status_message = "Ready" ∧
    (stop_recording env st).state.last_saved_path = some p ∧
    (stop_recording env st).state.error_message = none ∧
    (stop_recording env st).state.worker = none := by
  obtain ⟨sp, sw, wt, ko, ws, sr⟩ := env
  obtain ⟨status, sm, tr, lsp, ip, em, w⟩ := st
  simp only at hrec hnb hw hsig hkill hsave ⊢
  subst hrec
  subst hsave
  cases w with
  | none => exact absurd rfl hw
  | some u =>
    cases sp <;> cases wt <;> simp_all [stop_recording]

/-- Witness for C9: stopping `stHello` under `envOk` saves `"path.md"`. -/
theorem stop_success_final_mutation_witness :
    isBlank stHello.transcript = false ∧ envOk.save_result = Except.ok "path.md" ∧
    (stop_recording envOk stHello).result = Except.ok "path.md" ∧
    (stop_recording envOk stHello).state.install_progress = some 1 ∧
    (stop_recording envOk stHello).state.status = AppStatus.Ready ∧
    (stop_recording envOk stHello).state.worker = none := by
  have h := stop_success_final_mutation envOk stHello "path.md" rfl (by decide)
    (by decide) (by decide) (by decide) rfl
  exact ⟨by decide, rfl, h.1, h.2.1, h.2.2.1, h.2.2.2.2.2.2⟩

/-- **C7.** `start_recording` is rejected — with an error, with no
subprocess spawned, and with the session state (in particular the worker
slot) unchanged — whenever the session is already `Recording`, the
interpreter artifact is missing, or the model artifact is missing. -/
theorem start_preflight_rejects (env : StartEnv) (st : StateInner)
    (h : st.status = AppStatus.Recording ∨ env.venv_python_exists = false ∨
      model_ready env.model_dir = false) :
    (∃ msg, (start_recording env st).result = Except.error msg) ∧
    (start_recording env st).spawned = false ∧
    (start_recording env st).state = st := by
  unfold start_recording
  split_ifs with h1 h2 h3 h4 h5 h6 h7 h8 <;>
    try exact ⟨⟨_, rfl⟩, rfl, rfl⟩
  all_goals
    rcases h with h | h | h
    · exact absurd h h2
    · rw [h] at h4
      exact absurd h4 (by decide)
    · rw [h] at h5
      exact absurd h5 (by decide)

/-- Witness for C7: a missing model directory rejects the start command. -/
theorem start_preflight_rejects_witness :
    model_ready envNoModel.model_dir = false ∧
    (∃ msg, (start_recording envNoModel stReady).result = Except.error msg) ∧
    (start_recording envNoModel stReady).spawned = false ∧
    (start_recording envNoModel stReady).state = stReady := by
  have h := start_preflight_rejects envNoModel stReady (Or.inr (Or.inr rfl))
  exact ⟨rfl, h.1, h.2.1, h.2.2⟩

/-- The multi-buffer branch of `mix_nonempty`: with at least two buffers
and shortest length `m ≠ 0`, the result is the elementwise average over
the first `m` positions. -/
theorem mix_nonempty_multi (pb : List (List ℚ)) (m : ℕ)
    (h2 : 2 ≤ pb.length) (hm : (pb.map List.length).min? = some m) (hm0 : m ≠ 0) :
    mix_nonempty pb =
      (List.range m).map
        (fun index => (pb.map (fun s => s.getD index 0)).sum / (pb.length : ℚ)) := by
  have hne : pb.isEmpty = false := by
    cases pb with
    | nil => simp at h2
    | cons a l => rfl
  have h1 : pb.length ≠ 1 := by omega
  simp only [mix_nonempty, hne, h1, hm, hm0]
  simp

/-- In a list of non-empty buffers, the shortest length is positive. -/
theorem min_length_pos (pb : List (List ℚ)) (m : ℕ)
    (hm : (pb.map List.length).min? = some m)
    (hne : ∀ b ∈ pb, b ≠ []) : m ≠ 0 := by
  obtain ⟨b, hb, hbl⟩ := List.mem_map.mp (List.min?_eq_some_iff'.mp hm).1
  cases b with
  | nil => exact absurd rfl (hne [] hb)
  | cons x xs =>
    simp only [List.length_cons] at hbl
    omega

/-- **C10.** Mix-to-mono excludes buffers whose decoded mono sequence is
empty before computing the shortest-buffer truncation length: one empty
buffer plus one non-empty buffer yields the non-empty buffer's sequence
unchanged, and with at least two surviving non-empty buffers the output
length is the minimum over the non-empty decoded buffers only (it equals
the length of one of them and is at most the length of each). -/
theorem mix_excludes_empty_buffers :
    (∀ b : List ℚ, b ≠ [] → mix_decoded [[], b] = b ∧ mix_decoded [b, []] = b) ∧
    (∀ decoded : List (List ℚ),
      2 ≤ (decoded.filter (fun b => ¬ b.isEmpty)).length →
      (mix_decoded decoded).length ∈
        (decoded.filter (fun b => ¬ b.isEmpty)).map List.length ∧
      ∀ b ∈ decoded.filter (fun b => ¬ b.isEmpty),
        (mix_decoded decoded).length ≤ b.length) := by
  constructor
  · intro b hb
    cases b with
    | nil => exact absurd rfl hb
    | cons x xs => exact ⟨rfl, rfl⟩
  · intro decoded h2
    obtain ⟨m, hm⟩ :
        ∃ m, ((decoded.filter (fun b => ¬ b.isEmpty)).map List.length).min? = some m := by
      cases hmin : ((decoded.filter (fun b => ¬ b.isEmpty)).map List.length).min? with
      | none =>
        rw [List.min?_eq_none_iff, List.map_eq_nil_iff] at hmin
        rw [hmin] at h2
        simp at h2
      | some m => exact ⟨m, rfl⟩
    have hfe : ∀ b ∈ decoded.filter (fun b => ¬ b.isEmpty), b ≠ [] := by
      intro b hb
      have := (List.mem_filter.mp hb).2
      simp only [decide_eq_true_eq] at this
      intro hnil
      rw [hnil] at this
      simp at this
    have hm0 := min_length_pos _ m hm hfe
    have hmix :
        mix_decoded decoded =
          (List.range m).map
            (fun index =>
              ((decoded.filter (fun b => ¬ b.isEmpty)).map (fun s => s.getD index 0)).sum /
                ((decoded.filter (fun b => ¬ b.isEmpty)).length : ℚ)) := by
      rw [mix_decoded]
      exact mix_nonempty_multi _ m h2 hm hm0
    rw [hmix]
    have hmem := (List.min?_eq_some_iff'.mp hm).1
    have hle := (List.min?_eq_some_iff'.mp hm).2
    constructor
    · simpa using hmem
    · intro b hb
      have := hle b.length (List.mem_map_of_mem List.length hb)
      simpa using this

/-- Witness for C10: `[[], [5, 7]]` mixes to `[5, 7]`, and with
`[[1, 2, 3], [], [4, 5]]` the truncation length 2 comes from the
non-empty buffers only. -/
theorem mix_excludes_empty_buffers_witness :
    mix_decoded [[], [5, 7]] = ([5, 7] : List ℚ) ∧
    2 ≤ (([[1, 2, 3], [], [4, 5]] : List (List ℚ)).filter (fun b => ¬ b.isEmpty)).length ∧
    (mix_decoded [[1, 2, 3], [], [4, 5]]).length = 2 := by
  refine ⟨(mix_excludes_empty_buffers.1 [5, 7] (by decide)).1, by decide, by decide⟩

/-- **C3.** For two or more non-empty decoded buffers, mix-to-mono is the
elementwise average of all buffers' sequences truncated to the length of
the shortest buffer; a frame with exactly one buffer returns its mono
sequence unchanged. -/
theorem mix_average_truncated :
    (∀ decoded : List (List ℚ), 2 ≤ decoded.length → (∀ b ∈ decoded, b ≠ []) →
      (mix_decoded decoded).length ∈ decoded.map List.length ∧
      (∀ b ∈ decoded, (mix_decoded decoded).length ≤ b.length) ∧
      ∀ i, i < (mix_decoded decoded).length →
        (mix_decoded decoded).getD i 0 =
          (decoded.map (fun b => b.getD i 0)).sum / (decoded.length : ℚ)) ∧
    (∀ b : List ℚ, mix_decoded [b] = b) := by
  constructor
  · intro decoded h2 hne
    have hfil : decoded.filter (fun b => ¬ b.isEmpty) = decoded := by
      rw [List.filter_eq_self]
      intro b hb
      simpa using hne b hb
    obtain ⟨m, hm⟩ : ∃ m, (decoded.map List.length).min? = some m := by
      cases hmin : (decoded.map List.length).min? with
      | none =>
        rw [List.min?_eq_none_iff, List.map_eq_nil_iff] at hmin
        rw [hmin] at h2
        simp at h2
      | some m => exact ⟨m, rfl⟩
    have hm0 := min_length_pos decoded m hm hne
    have hmix :
        mix_decoded decoded =
          (List.range m).map
            (fun index => (decoded.map (fun s => s.getD index 0)).sum / (decoded.length : ℚ)) := by
      rw [mix_decoded, hfil]
      exact mix_nonempty_multi decoded m h2 hm hm0
    rw [hmix]
    have hmem := (List.min?_eq_some_iff'.mp hm).1
    have hle := (List.min?_eq_some_iff'.mp hm).2
    refine ⟨by simpa using hmem, ?_, ?_⟩
    · intro b hb
      have := hle b.length (List.mem_map_of_mem List.length hb)
      simpa using this
    · intro i hi
      simp only [List.length_map, List.length_range] at hi
      rw [List.getD_eq_getElem?_getD, List.getElem?_map, List.getElem?_range hi]
      rfl
  · intro b
    cases b with
    | nil => rfl
    | cons x xs => rfl

/-- Witness for C3: `[[1, 1], [-1, -1]]` mixes to `[0, 0]`, and buffer
lengths 5 and 3 truncate to 3. -/
theorem mix_average_truncated_witness :
    (mix_decoded ([[1, 1], [-1, -1]] : List (List ℚ))).length ≤ 2 ∧
    mix_decoded ([[1, 1], [-1, -1]] : List (List ℚ)) = [0, 0] ∧
    (mix_decoded ([[1, 1, 1, 1, 1], [2, 2, 2]] : List (List ℚ))).length = 3 := by
  refine ⟨(mix_average_truncated.1 [[1, 1], [-1, -1]] (by decide) (by decide)).2.1
    [-1, -1] (by decide), ?_, ?_⟩
  · simp only [mix_decoded]
    norm_num [mix_nonempty, List.filter, List.min?, List.range_succ, List.getD]
  · simp only [mix_decoded]
    norm_num [mix_nonempty, List.filter, List.min?, List.range_succ]

/-- As long as every index it will visit stays inside the input, the
resampling loop never takes its break branch and produces exactly one
interpolated sample per remaining iteration. -/
theorem resampleLoop_no_break (input : List ℚ) (ratio : ℚ) :
    ∀ (fuel start : ℕ),
    (∀ k, k < fuel → (⌊((start + k : ℕ) : ℚ) * ratio⌋).toNat < input.length) →
    resampleLoop input ratio start fuel =
      (List.range fuel).map (fun k => lerpAt input ratio (start + k)) := by
  intro fuel
  induction fuel with
  | zero => intro start h; rfl
  | succ n ih =>
    intro start h
    have h0 : (⌊(start : ℚ) * ratio⌋).toNat < input.length := by
      have := h 0 (by omega)
      simpa using this
    rw [resampleLoop]
    rw [if_neg (by omega)]
    have htail : ∀ k, k < n → (⌊((start + 1 + k : ℕ) : ℚ) * ratio⌋).toNat < input.length := by
      intro k hk
      have := h (k + 1) (by omega)
      have e : start + (k + 1) = start + 1 + k := by omega
      rw [e] at this
      exact this
    rw [ih (start + 1) htail, List.range_succ_eq_map, List.map_cons, List.map_map]
    refine congrArg₂ List.cons ?_ ?_
    · simp [lerpAt]
    · apply List.map_congr_left
      intro k _
      have e : start + 1 + k = start + Nat.succ k := by omega
      simp only [Function.comp]
      rw [e]

/-- For `0 < ratio` and `i` below `⌊N / ratio⌋`, the source index
`⌊i * ratio⌋` stays strictly inside the input. -/
theorem base_index_lt (N : ℕ) (ratio : ℚ) (hN : 0 < N) (hratio : 0 < ratio) (i : ℕ)
    (hi : i < (⌊(N : ℚ) / ratio⌋).toNat) :
    (⌊(i : ℚ) * ratio⌋).toNat < N := by
  have hfl : ((i : ℤ) + 1) ≤ ⌊(N : ℚ) / ratio⌋ := by omega
  have h1 : ((i : ℚ) + 1) ≤ (N : ℚ) / ratio := by
    have := Int.le_floor.mp hfl
    push_cast at this
    exact this
  have h2 : ((i : ℚ) + 1) * ratio ≤ (N : ℚ) := (le_div_iff₀ hratio).mp h1
  have h3 : (i : ℚ) * ratio < (N : ℚ) := by nlinarith
  have h4 : ⌊(i : ℚ) * ratio⌋ < (N : ℤ) := Int.floor_lt.mpr (by exact_mod_cast h3)
  omega

/-- **C5.** For non-empty input of length N and source rate R > 0 not
within 1 Hz of 16000: the output length is `⌊N * 16000 / R⌋` and output
sample `i` is the linear interpolation between `input[⌊i * ratio⌋]` and
`input[min (⌊i * ratio⌋ + 1) (N - 1)]` weighted by the fractional part of
`i * ratio`, with `ratio = R / 16000`; a rate ≤ 0 or empty input yields
an empty output. -/
theorem resample_length_and_lerp :
    (∀ (input : List ℚ) (R : ℚ), input ≠ [] → 0 < R → ¬ |R - 16000| < 1 →
      (resample_to_output_rate input R).length = (⌊(input.length : ℚ) * 16000 / R⌋).toNat ∧
      ∀ i, i < (resample_to_output_rate input R).length →
        (resample_to_output_rate input R).getD i 0 =
          input.getD (⌊(i : ℚ) * (R / 16000)⌋).toNat 0 *
              (1 - ((i : ℚ) * (R / 16000) - ((⌊(i : ℚ) * (R / 16000)⌋).toNat : ℚ))) +
            input.getD (min ((⌊(i : ℚ) * (R / 16000)⌋).toNat + 1) (input.length - 1)) 0 *
              ((i : ℚ) * (R / 16000) - ((⌊(i : ℚ) * (R / 16000)⌋).toNat : ℚ))) ∧
    (∀ (input : List ℚ) (R : ℚ), R ≤ 0 ∨ input = [] →
      resample_to_output_rate input R = []) := by
  constructor
  · intro input R hne hR h
    have hEmpty : input.isEmpty = false := by
      cases input with
      | nil => exact absurd rfl hne
      | cons a l => rfl
    have hcond1 : ¬ (input.isEmpty = true ∨ R ≤ 0) := by
      rw [hEmpty]
      push_neg
      exact ⟨by simp, hR⟩
    have hcond2 : ¬ |R - OUTPUT_SAMPLE_RATE| < 1 := by
      rw [OUTPUT_SAMPLE_RATE]
      exact h
    have hratio : (0 : ℚ) < R / OUTPUT_SAMPLE_RATE := by
      rw [OUTPUT_SAMPLE_RATE]
      positivity
    have hmax :
        max ⌊(input.length : ℚ) / (R / OUTPUT_SAMPLE_RATE)⌋ 0 =
          ⌊(input.length : ℚ) / (R / OUTPUT_SAMPLE_RATE)⌋ :=
      max_eq_left (Int.floor_nonneg.mpr (by positivity))
    have hfloor :
        ⌊(input.length : ℚ) * 16000 / R⌋ =
          ⌊(input.length : ℚ) / (R / OUTPUT_SAMPLE_RATE)⌋ := by
      rw [OUTPUT_SAMPLE_RATE, div_div_eq_mul_div]
    have hN : 0 < input.length := List.length_pos.mpr hne
    have hloop := resampleLoop_no_break input (R / OUTPUT_SAMPLE_RATE)
      (⌊(input.length : ℚ) / (R / OUTPUT_SAMPLE_RATE)⌋).toNat 0
      (fun k hk => by
        have := base_index_lt input.length (R / OUTPUT_SAMPLE_RATE) hN hratio k (by simpa using hk)
        simpa using this)
    simp only [resample_to_output_rate, hcond1, hcond2, if_false, hmax]
    by_cases hL : (⌊(input.length : ℚ) / (R / OUTPUT_SAMPLE_RATE)⌋).toNat = 0
    · rw [if_pos hL]
      refine ⟨by rw [hfloor, hL]; rfl, ?_⟩
      intro i hi
      simp at hi
    · rw [if_neg hL, hloop]
      refine ⟨by rw [hfloor]; simp, ?_⟩
      intro i hi
      simp only [List.length_map, List.length_range] at hi
      rw [List.getD_eq_getElem?_getD, List.getElem?_map, List.getElem?_range hi]
      simp [lerpAt, OUTPUT_SAMPLE_RATE]
  · intro input R h
    rcases h with h | h
    · simp [resample_to_output_rate, h]
    · subst h
      simp [resample_to_output_rate]

/-- Witness for C5: input `[2, 4]` at 8000 Hz upsamples to 4 samples with
interpolated midpoints, `[2, 3, 4, 4]`. -/
theorem resample_length_and_lerp_witness :
    ¬ |(8000 : ℚ) - 16000| < 1 ∧
    (resample_to_output_rate [2, 4] 8000).length = (⌊(2 : ℚ) * 16000 / 8000⌋).toNat ∧
    resample_to_output_rate [2, 4] 8000 = [2, 3, 4, 4] := by
  have h8 : ¬ |(8000 : ℚ) - 16000| < 1 := by
    rw [abs_sub_lt_iff]
    push_neg
    intro hcontra
    norm_num
  have hmain := (resample_length_and_lerp.1 [2, 4] 8000 (by decide) (by norm_num) h8).1
  refine ⟨h8, by simpa using hmain, ?_⟩
  simp only [resample_to_output_rate, OUTPUT_SAMPLE_RATE]
  norm_num [resampleLoop, List.getD]

/-- Serializing one sample and decoding the two bytes back as a
single-channel `i16` stream yields exactly the quantized integer scaled
by `1/32768`. -/
theorem decode_single_sample (s : ℚ) :
    decode_i16_mono (float_to_pcm_bytes [s]) 1 =
      [((float_to_pcm_sample s : ℚ) / 32768)] := by
  have hb := float_to_pcm_sample_bounds s
  have hr := i16_roundtrip (float_to_pcm_sample s) (by omega) hb.2
  have h1 : float_to_pcm_bytes [s] =
      [((float_to_pcm_sample s % 65536).toNat) % 256,
       ((float_to_pcm_sample s % 65536).toNat) / 256] := by
    simp [float_to_pcm_bytes, i16ToLeBytes]
  rw [h1]
  simp only [decode_i16_mono, chunksExact2, List.map]
  norm_num [hr]

/-- **C2 (counterexample).** At sample `s = 3/4` no clamping occurs
(`|s * 1.25| = 15/16 ≤ 1`), the quantizer emits 30719, and decoding gives
`30719/32768 ≈ 0.937`, which differs from `s = 0.75` by far more than
`1/32768`: the decoded value recovers the *gained* sample, not `s`. -/
theorem quantize_roundtrip_counterexample :
    |(3 : ℚ) / 4| ≤ 1 ∧
    |(3 : ℚ) / 4 * OUTPUT_GAIN| ≤ 1 ∧
    decode_i16_mono (float_to_pcm_bytes [3 / 4]) 1 = [(30719 : ℚ) / 32768] ∧
    1 / 32768 < |(30719 : ℚ) / 32768 - 3 / 4| := by
  have hq : float_to_pcm_sample (3 / 4) = 30719 := by
    rw [float_to_pcm_sample, OUTPUT_GAIN, clampQ]
    norm_num
    rw [rustRound]
    norm_num
  refine ⟨by rw [abs_of_pos] <;> norm_num, ?_, ?_, ?_⟩
  · rw [OUTPUT_GAIN, abs_of_pos] <;> norm_num
  · rw [decode_single_sample (3 / 4), hq]
    norm_num
  · have hv : (30719 : ℚ) / 32768 - 3 / 4 = 6143 / 32768 := by norm_num
    rw [hv, abs_of_pos] <;> norm_num

/-- **C2 (amended).** For every sample `s` with `|s| ≤ 1`, the quantizer
yields an integer in `[-32767, 32767] ⊆ [-32768, 32767]`, and decoding it
(dividing by 32768) recovers the gained-and-clamped value
`clamp(1.25 * s, -1, 1)` to within `±(3/2)/32768` (not the original `s`,
and not within `1/32768` in general). -/
theorem quantize_roundtrip_amended (s : ℚ) (hs : |s| ≤ 1) :
    (-32768 ≤ float_to_pcm_sample s ∧ float_to_pcm_sample s ≤ 32767) ∧
    decode_i16_mono (float_to_pcm_bytes [s]) 1 =
      [((float_to_pcm_sample s : ℚ) / 32768)] ∧
    |((float_to_pcm_sample s : ℚ) / 32768) - clampQ (s * OUTPUT_GAIN) (-1) 1| ≤
      3 / 65536 := by
  have hb := float_to_pcm_sample_bounds s
  refine ⟨⟨by omega, hb.2⟩, decode_single_sample s, ?_⟩
  obtain ⟨g, hg⟩ : ∃ g, clampQ (s * OUTPUT_GAIN) (-1) 1 = g := ⟨_, rfl⟩
  have hn : float_to_pcm_sample s = rustRound (g * 32767) := by
    rw [float_to_pcm_sample, hg]
  have h1 := rustRound_close (g * 32767)
  have h2 : |g| ≤ 1 := hg ▸ clampQ_abs_le (s * OUTPUT_GAIN)
  rw [hg, hn]
  have key : (rustRound (g * 32767) : ℚ) / 32768 - g =
      ((rustRound (g * 32767) : ℚ) - g * 32767 - g) / 32768 := by ring
  rw [key, abs_div, abs_of_pos (show (0 : ℚ) < 32768 by norm_num)]
  have htri : |(rustRound (g * 32767) : ℚ) - g * 32767 - g| ≤ 3 / 2 := by
    calc |(rustRound (g * 32767) : ℚ) - g * 32767 - g|
        = |((rustRound (g * 32767) : ℚ) - g * 32767) + (-g)| := by ring_nf
      _ ≤ |(rustRound (g * 32767) : ℚ) - g * 32767| + |(-g)| := abs_add _ _
      _ = |(rustRound (g * 32767) : ℚ) - g * 32767| + |g| := by rw [abs_neg]
      _ ≤ 1 / 2 + 1 := add_le_add h1 h2
      _ = 3 / 2 := by norm_num
  have hdone : |(rustRound (g * 32767) : ℚ) - g * 32767 - g| / 32768 ≤ (3 / 2) / 32768 := by
    gcongr
  calc |(rustRound (g * 32767) : ℚ) - g * 32767 - g| / 32768
      ≤ (3 / 2) / 32768 := hdone
    _ = 3 / 65536 := by norm_num

/-- Witness for C2 (amended) at `s = 1/2`: the quantizer emits 20479 and
`|20479/32768 - 5/8| = 1/32768 ≤ 3/65536 · 2`. -/
theorem quantize_roundtrip_amended_witness :
    |(1 : ℚ) / 2| ≤ 1 ∧
    |((float_to_pcm_sample (1 / 2) : ℚ) / 32768) -
        clampQ ((1 / 2) * OUTPUT_GAIN) (-1) 1| ≤ 3 / 65536 := by
  have hs : |(1 : ℚ) / 2| ≤ 1 := by
    rw [abs_of_pos] <;> norm_num
  exact ⟨hs, (quantize_roundtrip_amended (1 / 2) hs).2.2⟩

end WhisperBar
